import Mathlib

/-!
Verification development for the icie extension core: a shallow embedding of
the streaming JSON frame decoder, the directory path derivation rules, and
the build/test/init/submit orchestration workflow of `extension.ts`
(`src/unnamed/part_000`) and `native.ts`, with theorems checking the
specification's claims against the embedded code.

Bytes are modelled as `Nat` (the relevant structural bytes are ASCII:
123 `{`, 125 `}`, 91 `[`, 93 `]`, 34 `"`, 92 `\`, 10 newline; UTF-8
continuation bytes are ≥ 128 and never collide with these).
-/

namespace Icie

namespace Multijson

/-- Modelled from the spec: the `multijson.Parser` module imported by
`native.ts` is not under `src/`; only its caller `Logic.recv` is.  Per §4.1
of the spec, a value is complete when a structural scan of the buffered
bytes finds a balanced top-level JSON document (object or array) whose
closing delimiter has been reached, honoring string-literal escaping rules.
`Core` is the state of that scan: the bytes of the current partial value,
the structural nesting depth (0 means between top-level values), and the
string-literal state (inside a quoted string, just after a backslash). -/
structure Core where
  cur : List Nat
  depth : Nat
  inStr : Bool
  esc : Bool
deriving DecidableEq

/-- Byte 123 is `{` and byte 91 is `[`: the opening delimiters of a
self-describing top-level JSON value. -/
def isOpen (b : Nat) : Bool := b == 123 || b == 91

/-- Byte 125 is `}` and byte 93 is `]`: the closing delimiters. -/
def isClose (b : Nat) : Bool := b == 125 || b == 93

/-- Modelled from the spec: one byte of the structural completeness scan.
Returns the new scan state and the complete value emitted by this byte, if
any.  Between values (depth 0) any byte other than an opening delimiter is
a separator (the worker terminates each document with a newline) and is
skipped; inside a quoted string, braces and brackets are not structural and
a backslash escapes the next byte. -/
def coreStep (c : Core) (b : Nat) : Core × Option (List Nat) :=
  if c.depth = 0 then
    if isOpen b then (⟨[b], 1, false, false⟩, none)
    else (c, none)
  else if c.inStr then
    if c.esc then ({ c with cur := c.cur ++ [b], esc := false }, none)
    else if b = 92 then ({ c with cur := c.cur ++ [b], esc := true }, none)
    else if b = 34 then ({ c with cur := c.cur ++ [b], inStr := false }, none)
    else ({ c with cur := c.cur ++ [b] }, none)
  else
    if b = 34 then ({ c with cur := c.cur ++ [b], inStr := true }, none)
    else if isOpen b then ({ c with cur := c.cur ++ [b], depth := c.depth + 1 }, none)
    else if isClose b then
      if c.depth = 1 then ((⟨[], 0, false, false⟩ : Core), some (c.cur ++ [b]))
      else ({ c with cur := c.cur ++ [b], depth := c.depth - 1 }, none)
    else ({ c with cur := c.cur ++ [b] }, none)

/-- The scan state between top-level values: empty partial value, depth 0. -/
def core0 : Core := ⟨[], 0, false, false⟩

/-- Run the completeness scan over a byte list, collecting every complete
value emitted, in order. -/
def scanCore : Core → List Nat → Core × List (List Nat)
  | c, [] => (c, [])
  | c, b :: bs =>
    let r := coreStep c b
    let rest := scanCore r.1 bs
    (rest.1, r.2.toList ++ rest.2)

/-- Modelled from the spec: the frame decoder's internal buffer of raw
bytes (`write(bytes)` appends to it, `read()` drains the complete values
out of it). -/
structure Parser where
  buf : List Nat
deriving DecidableEq

/-- Modelled from the spec: `write(bytes)` appends raw bytes to the
internal buffer. -/
def Parser.write (p : Parser) (bs : List Nat) : Parser := ⟨p.buf ++ bs⟩

/-- Modelled from the spec: `read()` returns, and removes from the buffer,
every complete self-describing JSON value found so far, in arrival order,
leaving any trailing partial value buffered for the next `write`. -/
def Parser.read (p : Parser) : List (List Nat) × Parser :=
  let r := scanCore core0 p.buf
  (r.2, ⟨r.1.cur⟩)

/-- A byte list is a valid (complete) JSON document exactly when the
spec's structural completeness scan, started between values, consumes it
as one single complete value: one emission, holding precisely these bytes,
with the scan back between values afterwards. -/
def ValidDoc (d : List Nat) : Prop := scanCore core0 d = (core0, [d])

instance (d : List Nat) : Decidable (ValidDoc d) := by
  unfold ValidDoc; infer_instance

/-- Each document followed by the protocol's newline terminator (§6: each
message is one JSON document followed by a newline). -/
def joinNl : List (List Nat) → List Nat
  | [] => []
  | d :: rest => d ++ 10 :: joinNl rest

/-- Concatenation of a chunk list into the underlying byte stream. -/
def flattenAll : List (List Nat) → List Nat
  | [] => []
  | c :: rest => c ++ flattenAll rest

/-- Feed one chunk into the decoder (`write`), then drain it (`read`),
appending the drained values to the accumulator — exactly what
`Logic.recv` in `native.ts` does per `data` callback. -/
def feed (ap : List (List Nat) × Parser) (chunk : List Nat) :
    List (List Nat) × Parser :=
  let p1 := ap.2.write chunk
  let r := p1.read
  (ap.1 ++ r.1, r.2)

/-- Feed a whole chunk sequence, in order, into a fresh decoder. -/
def feedChunks (chunks : List (List Nat)) : List (List Nat) × Parser :=
  chunks.foldl feed ([], ⟨[]⟩)

theorem scanCore_nil (c : Core) : scanCore c [] = (c, []) := rfl

theorem scanCore_cons (c : Core) (b : Nat) (bs : List Nat) :
    scanCore c (b :: bs) =
      ((scanCore (coreStep c b).1 bs).1,
        (coreStep c b).2.toList ++ (scanCore (coreStep c b).1 bs).2) := rfl

theorem scanCore_append (a b : List Nat) (c : Core) :
    scanCore c (a ++ b) =
      ((scanCore (scanCore c a).1 b).1,
        (scanCore c a).2 ++ (scanCore (scanCore c a).1 b).2) := by
  induction a generalizing c with
  | nil => simp [scanCore_nil]
  | cons x xs ih =>
      simp only [List.cons_append, scanCore_cons, ih, List.append_assoc]

theorem scanCore_single (c : Core) (b : Nat) :
    scanCore c [b] = ((coreStep c b).1, (coreStep c b).2.toList) := by
  simp [scanCore_cons, scanCore_nil]

/-- The invariant of scan states reachable from `core0`: re-scanning the
buffered partial value from scratch reproduces exactly this state and
emits nothing (this is what makes `read`, which re-scans the raw buffer,
agree with an incremental scan), the state between values is canonical,
and the escape flag is only meaningful inside a string. -/
def GoodCore (c : Core) : Prop :=
  scanCore core0 c.cur = (c, []) ∧
  (c.depth = 0 → c = core0) ∧
  (c.inStr = false → c.esc = false)

theorem goodCore_core0 : GoodCore core0 := by
  refine ⟨rfl, fun _ => rfl, fun _ => rfl⟩

/-- Inside a value (depth ≠ 0), a scan step either emits the completed
value and returns to the canonical between-values state, or appends the
byte to the partial value, stays inside, and preserves the escape-flag
discipline. -/
theorem coreStep_shape (c : Core) (b : Nat) (hd : ¬ c.depth = 0)
    (h3 : c.inStr = false → c.esc = false) :
    (∃ v, coreStep c b = (core0, some v)) ∨
    (∃ c', coreStep c b = (c', none) ∧ c'.cur = c.cur ++ [b] ∧
      ¬ c'.depth = 0 ∧ (c'.inStr = false → c'.esc = false)) := by
  unfold coreStep
  rw [if_neg hd]
  by_cases hs : c.inStr
  · rw [if_pos hs]
    by_cases he : c.esc
    · rw [if_pos he]; right; exact ⟨_, rfl, rfl, hd, by simp [hs]⟩
    · rw [if_neg he]
      by_cases hb92 : b = 92
      · rw [if_pos hb92]; right; exact ⟨_, rfl, rfl, hd, by simp [hs]⟩
      · rw [if_neg hb92]
        by_cases hb34 : b = 34
        · rw [if_pos hb34]; right
          refine ⟨_, rfl, rfl, hd, fun _ => ?_⟩
          simpa using he
        · rw [if_neg hb34]; right; exact ⟨_, rfl, rfl, hd, by simp [hs]⟩
  · rw [if_neg hs]
    by_cases hb34 : b = 34
    · rw [if_pos hb34]; right; exact ⟨_, rfl, rfl, hd, by simp⟩
    · rw [if_neg hb34]
      by_cases hob : isOpen b
      · rw [if_pos hob]; right
        refine ⟨_, rfl, rfl, by simp, fun _ => ?_⟩
        simpa using h3 (by simpa using hs)
      · rw [if_neg hob]
        by_cases hcb : isClose b
        · rw [if_pos hcb]
          by_cases hd1 : c.depth = 1
          · rw [if_pos hd1]; left; exact ⟨c.cur ++ [b], rfl⟩
          · rw [if_neg hd1]; right
            refine ⟨_, rfl, rfl, by simp; omega, fun _ => ?_⟩
            simpa using h3 (by simpa using hs)
        · rw [if_neg hcb]; right
          refine ⟨_, rfl, rfl, hd, fun _ => ?_⟩
          simpa using h3 (by simpa using hs)

theorem goodCore_step (c : Core) (b : Nat) (h : GoodCore c) :
    GoodCore (coreStep c b).1 := by
  obtain ⟨h1, h2, h3⟩ := h
  by_cases hd : c.depth = 0
  · have hc0 : c = core0 := h2 hd
    subst hc0
    by_cases ho : isOpen b
    · refine ⟨?_, ?_, ?_⟩ <;> simp [coreStep, ho, scanCore_single, core0]
    · have hstep : coreStep core0 b = (core0, none) := by
        simp [coreStep, core0, ho]
      rw [hstep]
      exact ⟨rfl, fun _ => rfl, fun _ => rfl⟩
  · rcases coreStep_shape c b hd h3 with ⟨v, hstep⟩ | ⟨c', hstep, hcur, hdep, hesc⟩
    · rw [hstep]; exact goodCore_core0
    · rw [hstep]
      refine ⟨?_, fun h0 => absurd h0 hdep, hesc⟩
      rw [hcur, scanCore_append, h1]
      simp [scanCore_single, hstep]

theorem goodCore_scan (bs : List Nat) :
    ∀ c : Core, GoodCore c → GoodCore (scanCore c bs).1 := by
  induction bs with
  | nil => intro c h; simpa [scanCore_nil] using h
  | cons b bs ih =>
      intro c h
      rw [scanCore_cons]
      exact ih _ (goodCore_step c b h)

/-- Chunk-boundary invariance: feeding chunks one at a time, draining the
decoder after each chunk (as `Logic.recv` does), collects exactly the
values of one single scan of the concatenated byte stream, and leaves
exactly that scan's partial value in the buffer. -/
theorem feed_foldl (chunks : List (List Nat)) :
    ∀ (c : Core) (acc : List (List Nat)), GoodCore c →
      chunks.foldl feed (acc, ⟨c.cur⟩) =
        (acc ++ (scanCore c (flattenAll chunks)).2,
          ⟨(scanCore c (flattenAll chunks)).1.cur⟩) := by
  induction chunks with
  | nil => intro c acc _; simp [flattenAll, scanCore_nil]
  | cons ch rest ih =>
      intro c acc hg
      have hstep : feed (acc, ⟨c.cur⟩) ch =
          (acc ++ (scanCore c ch).2, ⟨(scanCore c ch).1.cur⟩) := by
        simp [feed, Parser.write, Parser.read, scanCore_append, hg.1]
      rw [List.foldl_cons, hstep,
        ih (scanCore c ch).1 (acc ++ (scanCore c ch).2) (goodCore_scan ch c hg)]
      simp [flattenAll, scanCore_append]

/-- Scanning the newline-joined concatenation of valid documents from the
between-values state emits exactly those documents and ends between
values. -/
theorem scan_joinNl (docs : List (List Nat)) (h : ∀ d ∈ docs, ValidDoc d) :
    scanCore core0 (joinNl docs) = (core0, docs) := by
  induction docs with
  | nil => simp [joinNl, scanCore_nil]
  | cons d rest ih =>
      have hd : ValidDoc d := h d (List.mem_cons_self d rest)
      have hrest : scanCore core0 (joinNl rest) = (core0, rest) :=
        ih (fun x hx => h x (List.mem_cons_of_mem d hx))
      have hnl : coreStep core0 10 = (core0, none) := by
        simp [coreStep, core0, isOpen]
      rw [joinNl, scanCore_append, hd, scanCore_cons, hnl, hrest]
      simp

/-- Length of an optional emitted value. -/
def optLen : Option (List Nat) → Nat
  | none => 0
  | some v => v.length

/-- Total byte length of a list of emitted values. -/
def lenSum (vs : List (List Nat)) : Nat := (vs.map List.length).sum

theorem lenSum_append (xs ys : List (List Nat)) :
    lenSum (xs ++ ys) = lenSum xs + lenSum ys := by
  simp [lenSum]

theorem lenSum_nil : lenSum [] = 0 := rfl

theorem lenSum_single (d : List Nat) : lenSum [d] = d.length := by
  simp [lenSum]

/-- A scan step accounts for at most one byte: the partial value plus the
emitted value grow by at most one byte per byte scanned. -/
theorem coreStep_len (c : Core) (b : Nat) :
    (coreStep c b).1.cur.length + optLen (coreStep c b).2 ≤
      c.cur.length + 1 := by
  unfold coreStep
  split_ifs <;> simp [optLen]

theorem scan_len (bs : List Nat) :
    ∀ c : Core,
      (scanCore c bs).1.cur.length + lenSum (scanCore c bs).2 ≤
        c.cur.length + bs.length := by
  induction bs with
  | nil => intro c; simp [scanCore_nil, lenSum]
  | cons b bs ih =>
      intro c
      rw [scanCore_cons]
      have h1 := coreStep_len c b
      have h2 := ih (coreStep c b).1
      have h3 : lenSum ((coreStep c b).2.toList ++
          (scanCore (coreStep c b).1 bs).2) =
          optLen (coreStep c b).2 +
            lenSum (scanCore (coreStep c b).1 bs).2 := by
        cases hs : (coreStep c b).2 <;> simp [lenSum, optLen]
      simp only [h3, List.length_cons]
      omega

/-- The partial value is always a suffix of the bytes scanned so far, and
the between-values state holds no partial bytes. -/
theorem coreStep_suffix (c : Core) (b : Nat) (h : c.depth = 0 → c.cur = []) :
    ((coreStep c b).1.cur <:+ c.cur ++ [b]) ∧
    ((coreStep c b).1.depth = 0 → (coreStep c b).1.cur = []) := by
  unfold coreStep
  split_ifs <;>
    simp_all [List.suffix_append, List.nil_suffix, List.suffix_refl] <;>
    omega

theorem scan_suffix (bs : List Nat) :
    ∀ c : Core, (c.depth = 0 → c.cur = []) →
      ((scanCore c bs).1.cur <:+ c.cur ++ bs) ∧
      ((scanCore c bs).1.depth = 0 → (scanCore c bs).1.cur = []) := by
  induction bs with
  | nil =>
      intro c h
      rw [scanCore_nil]
      exact ⟨by simp, h⟩
  | cons b bs ih =>
      intro c h
      rw [scanCore_cons]
      obtain ⟨s1, d1⟩ := coreStep_suffix c b h
      obtain ⟨s2, d2⟩ := ih (coreStep c b).1 d1
      refine ⟨?_, d2⟩
      obtain ⟨t, ht⟩ := s1
      have hmid : (coreStep c b).1.cur ++ bs <:+ c.cur ++ b :: bs := by
        refine ⟨t, ?_⟩
        rw [← List.append_assoc, ht]
        simp
      exact s2.trans hmid

/-- Scanning a proper prefix of a single valid document emits nothing and
keeps exactly the prefix buffered as the current partial value. -/
theorem prefix_scan (d pre suf : List Nat) (hv : ValidDoc d)
    (hps : pre ++ suf = d) (hsuf : suf ≠ []) :
    (scanCore core0 pre).2 = [] ∧ (scanCore core0 pre).1.cur = pre := by
  unfold ValidDoc at hv
  have happ : (core0, [d]) =
      ((scanCore (scanCore core0 pre).1 suf).1,
        (scanCore core0 pre).2 ++ (scanCore (scanCore core0 pre).1 suf).2) := by
    rw [← hv, ← hps, scanCore_append]
  have h1 : core0 = (scanCore (scanCore core0 pre).1 suf).1 :=
    congrArg Prod.fst happ
  have h2 : [d] = (scanCore core0 pre).2 ++
      (scanCore (scanCore core0 pre).1 suf).2 := congrArg Prod.snd happ
  have L1 : (scanCore core0 pre).1.cur.length +
      lenSum (scanCore core0 pre).2 ≤ pre.length := by
    simpa [core0] using scan_len pre core0
  have L2 := scan_len suf (scanCore core0 pre).1
  have L2' : lenSum (scanCore (scanCore core0 pre).1 suf).2 ≤
      (scanCore core0 pre).1.cur.length + suf.length := by
    rw [← h1] at L2
    simpa [core0] using L2
  have Lsum : lenSum (scanCore core0 pre).2 +
      lenSum (scanCore (scanCore core0 pre).1 suf).2 = d.length := by
    have hs : lenSum [d] = d.length := by simp [lenSum]
    rw [← hs, h2, lenSum_append]
  have hdlen : d.length = pre.length + suf.length := by
    rw [← hps]; simp
  have hsuflen : 0 < suf.length := List.length_pos.mpr hsuf
  cases hvs : (scanCore core0 pre).2 with
  | cons v vt =>
      exfalso
      rw [hvs] at h2 L1
      simp only [List.cons_append] at h2
      have hvd : d = v := (List.cons.inj h2).1
      have hvt : vt = [] :=
        (List.append_eq_nil.mp ((List.cons.inj h2).2).symm).1
      subst hvd
      rw [hvt, lenSum_single] at L1
      omega
  | nil =>
      refine ⟨rfl, ?_⟩
      rw [hvs, lenSum_nil] at L1 Lsum
      have hlen : (scanCore core0 pre).1.cur.length = pre.length := by
        omega
      have hsufx : (scanCore core0 pre).1.cur <:+ pre := by
        have := (scan_suffix pre core0 (by simp [core0])).1
        simpa [core0] using this
      exact List.IsSuffix.eq_of_length hsufx hlen

/-- C3: For any sequence of valid JSON documents concatenated (each
followed by the protocol's newline) and then split into arbitrary
byte-length chunks, feeding the chunks in order to the frame decoder via
`write` and collecting the values returned by `read` yields exactly the
original sequence of documents in order; a `read` after writing only a
truncated prefix of a document yields no value for it, and the trailing
partial value remains buffered until a later `write` completes it. -/
theorem frame_roundtrip :
    (∀ (docs chunks : List (List Nat)),
      (∀ d ∈ docs, ValidDoc d) →
      flattenAll chunks = joinNl docs →
      feedChunks chunks = (docs, ⟨[]⟩)) ∧
    (∀ (d pre suf : List Nat),
      ValidDoc d → pre ++ suf = d → suf ≠ [] →
      Parser.read (Parser.write ⟨[]⟩ pre) = ([], ⟨pre⟩) ∧
      Parser.read
        (Parser.write (Parser.read (Parser.write ⟨[]⟩ pre)).2 suf) =
          ([d], ⟨[]⟩)) := by
  constructor
  · intro docs chunks hdocs hflat
    have h := feed_foldl chunks core0 [] goodCore_core0
    rw [hflat, scan_joinNl docs hdocs] at h
    simpa [feedChunks, core0] using h
  · intro d pre suf hv hps hsuf
    obtain ⟨e1, e2⟩ := prefix_scan d pre suf hv hps hsuf
    have hr1 : Parser.read (Parser.write ⟨[]⟩ pre) = ([], ⟨pre⟩) := by
      simp [Parser.write, Parser.read, e1, e2]
    refine ⟨hr1, ?_⟩
    rw [hr1]
    have hbuf : Parser.write (⟨pre⟩ : Parser) suf = ⟨d⟩ := by
      simp [Parser.write, hps]
    rw [hbuf]
    have hvd : scanCore core0 d = (core0, [d]) := hv
    have hread : Parser.read ⟨d⟩ =
        ((scanCore core0 d).2, ⟨(scanCore core0 d).1.cur⟩) := rfl
    rw [hread, hvd]
    rfl

/-- Concrete run of the round-trip theorem: the two documents
`{}` and `{"a":[]}`, newline-terminated, split into chunks that cut inside
a document and straddle its delimiters; and the document with an escaped
quote in a string, written in two pieces split in the middle of the
escape sequence. -/
theorem frame_roundtrip_witness :
    feedChunks [[123], [125, 10, 123, 34], [97, 34, 58, 91], [93, 125, 10]] =
      ([[123, 125], [123, 34, 97, 34, 58, 91, 93, 125]], ⟨[]⟩) ∧
    Parser.read (Parser.write ⟨[]⟩ [123, 34, 97, 34, 58, 34, 92]) =
      ([], ⟨[123, 34, 97, 34, 58, 34, 92]⟩) ∧
    Parser.read
      (Parser.write
        (Parser.read (Parser.write ⟨[]⟩ [123, 34, 97, 34, 58, 34, 92])).2
        [34, 34, 125]) =
      ([[123, 34, 97, 34, 58, 34, 92, 34, 34, 125]], ⟨[]⟩) := by
  refine ⟨frame_roundtrip.1
      [[123, 125], [123, 34, 97, 34, 58, 91, 93, 125]]
      [[123], [125, 10, 123, 34], [97, 34, 58, 91], [93, 125, 10]]
      (by decide) (by decide),
    (frame_roundtrip.2 [123, 34, 97, 34, 58, 34, 92, 34, 34, 125]
      [123, 34, 97, 34, 58, 34, 92] [34, 34, 125]
      (by decide) (by decide) (by decide)).1,
    (frame_roundtrip.2 [123, 34, 97, 34, 58, 34, 92, 34, 34, 125]
      [123, 34, 97, 34, 58, 34, 92] [34, 34, 125]
      (by decide) (by decide) (by decide)).2⟩

end Multijson

/-! ## Orchestrator model (`extension.ts`, `src/unnamed/part_000`)

The orchestrator's async methods are embedded in an effect monad `M`:
a computation consumes an environment `Ctx` (the oracle answers of the
external collaborators: user prompt answers, the random number stream,
the filesystem, the worker), produces an `Except Err` result, the ordered
list of observable effects (`Event`s) it performed, and the environment
with the consumed oracle answers removed.  Thrown JS values become `Err`
constructors; `await`-sequencing becomes monadic bind. -/

/-- The errors thrown by the workflow.  `inputBoxCancelled` is the
`Error("did not get input on input box")` throw (the spec's
`PromptCancelled` class); `notAllTestsPassed` is the
`throw "Not all tests passed"` (the spec's `PreconditionFailed` class);
`noFreeProjectName` is the `reject('failed to find free project name')`
(the spec's `NoFreeNameFound`); `statFailed` is an `afs.stat` rejection;
`buildFailed` a worker-reported build failure; `manifestMissing` a
`mnfst.load` failure. -/
inductive Err where
  | inputBoxCancelled
  | notAllTestsPassed
  | noFreeProjectName
  | statFailed
  | buildFailed
  | manifestMissing
deriving DecidableEq

/-- The observable effects of the workflow, in the order performed:
capability invocations (save-all flush, prompts, filesystem operations)
and Impulses sent to the worker (build, test, submit, init commands and
the authentication answer). -/
inductive Event where
  | saveAll
  | stat (path : String)
  | existsCheck (path : String)
  | mkdir (path : String)
  | copy (src dst : String)
  | buildImpulse (source : String)
  | testImpulse (executable testdir : String)
  | submitImpulse (source url : String)
  | initImpulse (url dir : String)
  | authRespond (username password : String)
  | prompt (text : String) (masked : Bool)
  | manifestLoad (path : String)
  | manifestSave (path url : String)
  | confLoad
  | openFolder (path : String)
deriving DecidableEq

/-- The template cursor start position read from the config
(`template.start.{row,column}`). -/
structure TemplateStart where
  row : Nat
  column : Nat
deriving DecidableEq

/-- The template section of the config (`template.path`,
`template.start`). -/
structure Template where
  path : String
  start : TemplateStart
deriving DecidableEq

/-- The externally owned configuration; the core reads only the template
fields. -/
structure Config where
  template : Template
deriving DecidableEq

/-- The per-project persisted record (`.icie` file). -/
structure Manifest where
  task_url : String
deriving DecidableEq

/-- A pending credential challenge raised by the worker: the judge domain
asking for credentials. -/
structure AuthRequest where
  domain : String
deriving DecidableEq

/-- The credentials supplied back to the worker. -/
structure AuthResponse where
  username : String
  password : String
deriving DecidableEq

/-- The environment of oracle answers for the external collaborators:
`answers` are successive `showInputBox` results (`none` = the user
dismissed the box), `picks` are successive pairs of random indices drawn
by `choice`, `existing` is the set of filesystem paths that exist,
`mtimes` maps a path to its mtime when `stat` succeeds, `buildOk` and
`testOutcome` are the worker's terminal build/test results, `manifest` is
the content of the project's `.icie` file if readable, `authChallenge` is
the authentication challenge the worker raises mid-submit/init (if any),
`home` is the user's home directory, and `config` the external config. -/
structure Ctx where
  answers : List (Option String)
  picks : List (Nat × Nat)
  existing : List String
  mtimes : List (String × Nat)
  buildOk : Bool
  testOutcome : Bool
  manifest : Option String
  authChallenge : Option String
  home : String
  config : Config
deriving DecidableEq

instance {ε α : Type} [DecidableEq ε] [DecidableEq α] :
    DecidableEq (Except ε α) := fun x y =>
  match x, y with
  | .ok a, .ok b =>
      if h : a = b then isTrue (by rw [h])
      else isFalse (by intro he; cases he; exact h rfl)
  | .ok _, .error _ => isFalse (by intro he; cases he)
  | .error _, .ok _ => isFalse (by intro he; cases he)
  | .error e, .error f =>
      if h : e = f then isTrue (by rw [h])
      else isFalse (by intro he; cases he; exact h rfl)

/-- The effect monad: result, effect trace, remaining environment. -/
def M (α : Type) : Type := Ctx → Except Err α × List Event × Ctx

def M.pure (a : α) : M α := fun c => (Except.ok a, [], c)

def M.bind (x : M α) (f : α → M β) : M β := fun c =>
  match x c with
  | (Except.ok a, tr, c') =>
      ((f a c').1, tr ++ (f a c').2.1, (f a c').2.2)
  | (Except.error e, tr, c') => (Except.error e, tr, c')

instance : Monad M where
  pure := M.pure
  bind := M.bind

/-- Throwing a JS value. -/
def throwE (e : Err) : M α := fun c => (Except.error e, [], c)

/-- Record an observable effect. -/
def emit (ev : Event) : M Unit := fun c => (Except.ok (), [ev], c)

/-- Read the environment (used to model collaborator return values). -/
def getCtx : M Ctx := fun c => (Except.ok c, [], c)

/-- The next `showInputBox` outcome: `none` when the user dismisses the
box (or no answer is configured). -/
def askInput : M (Option String) := fun c =>
  match c.answers with
  | [] => (Except.ok none, [], c)
  | a :: rest => (Except.ok a, [], { c with answers := rest })

/-- The next pair of random indices drawn by `choice`. -/
def nextPick : M (Nat × Nat) := fun c =>
  match c.picks with
  | [] => (Except.ok (0, 0), [], c)
  | p :: rest => (Except.ok p, [], { c with picks := rest })

/-- `afs.stat`: resolves with the file's mtime, rejects if the file is
absent. -/
def afsStat (path : String) : M Nat := fun c =>
  match c.mtimes.lookup path with
  | some t => (Except.ok t, [Event.stat path], c)
  | none => (Except.error Err.statFailed, [Event.stat path], c)

/-- The `try { statexe = await afs.stat(exe) } catch` pattern of
`requiresCompilation`: a caught stat, `none` on rejection. -/
def tryStat (path : String) : M (Option Nat) := fun c =>
  match c.mtimes.lookup path with
  | some t => (Except.ok (some t), [Event.stat path], c)
  | none => (Except.ok none, [Event.stat path], c)

/-- `afs.exists`. -/
def afsExists (path : String) : M Bool := fun c =>
  (Except.ok (c.existing.contains path), [Event.existsCheck path], c)

/-- `afs.mkdir`. -/
def afsMkdir (path : String) : M Unit := emit (Event.mkdir path)

/-- `afs.copy`. -/
def afsCopy (src dst : String) : M Unit := emit (Event.copy src dst)

/-- `conf.load`. -/
def confLoad : M Config := fun c =>
  (Except.ok c.config, [Event.confLoad], c)

/-- `mnfst.save`: serializes and writes the manifest. -/
def mnfstSave (path : String) (m : Manifest) : M Unit :=
  emit (Event.manifestSave path m.task_url)

/-- `mnfst.load`: reads and deserializes the manifest, failing if absent
or unparsable. -/
def mnfstLoad (path : String) : M Manifest := fun c =>
  match c.manifest with
  | some url => (Except.ok ⟨url⟩, [Event.manifestLoad path], c)
  | none => (Except.error Err.manifestMissing, [Event.manifestLoad path], c)

/-- `homedir()`. -/
def homedir : M String := fun c => (Except.ok c.home, [], c)

/-- Modelled from the spec: the `ci` module is not under `src/`.  `Build`
sends a build command referencing the source path; the terminal result is
success/failure reported by the worker (§4.4). -/
def ciBuild (source : String) : M Unit := fun c =>
  if c.buildOk then (Except.ok (), [Event.buildImpulse source], c)
  else (Except.error Err.buildFailed, [Event.buildImpulse source], c)

/-- Modelled from the spec: `Test` sends a test command referencing the
executable path and tests directory; the terminal result is a boolean
"all tests passed" (§4.4). -/
def ciTest (executable testdir : String) : M Bool := fun c =>
  (Except.ok c.testOutcome, [Event.testImpulse executable testdir], c)

/-- Modelled from the spec: `Submit` sends a submit command; during it the
worker may raise one authentication challenge, which suspends the call
until the supplied callback collects credentials and they are sent back;
only then does the submit resolve (§4.4). -/
def ciSubmit (source url : String)
    (callback : AuthRequest → M AuthResponse) : M Unit := do
  emit (Event.submitImpulse source url)
  let c ← getCtx
  match c.authChallenge with
  | some domain =>
      let resp ← callback ⟨domain⟩
      emit (Event.authRespond resp.username resp.password)
  | none => pure ()

/-- Modelled from the spec: the worker's init command, which may itself
raise the authentication challenge (§4.4). -/
def ciInit (url dir : String)
    (callback : AuthRequest → M AuthResponse) : M Unit := do
  emit (Event.initImpulse url dir)
  let c ← getCtx
  match c.authChallenge with
  | some domain =>
      let resp ← callback ⟨domain⟩
      emit (Event.authRespond resp.username resp.password)
  | none => pure ()

/-- The options record passed to `vscode.window.showInputBox`; the
`password` masking flag defaults to false and is never set anywhere in
`extension.ts` (no call site passes it). -/
structure InputBoxOptions where
  prompt : String
  password : Bool := false
deriving DecidableEq

/-- `inputbox` of `extension.ts`: shows the input box; a defined answer
(possibly the empty string) resolves, `undefined` (the user dismissed the
box) throws `Error("did not get input on input box")`. -/
def inputbox (options : InputBoxOptions) : M String := do
  emit (Event.prompt options.prompt options.password)
  let maybe ← askInput
  match maybe with
  | some s => M.pure s
  | none => throwE Err.inputBoxCancelled

/-- The `Directory` class of `extension.ts`: path derivation from a base
path. -/
structure Directory where
  base : String
deriving DecidableEq

/-- `Directory.source`: `this.base + '/main.cpp'`. -/
def Directory.source (d : Directory) : String := d.base ++ "/main.cpp"

/-- `Directory.executable`:
`source.substr(0, source.length - 4) + '.e'`. -/
def Directory.executable (d : Directory) : String :=
  let source := d.source
  String.mk (source.data.take (source.length - 4)) ++ ".e"

/-- `Directory.testsDirectory`: `this.base + '/tests'`. -/
def Directory.testsDirectory (d : Directory) : String := d.base ++ "/tests"

/-- `ICIE.respondAuthreq`: collects a username then (with the username
echoed in its prompt text) a password, both via `inputbox`. -/
def respondAuthreq (authreq : AuthRequest) : M AuthResponse := do
  let username ← inputbox { prompt := "Username at " ++ authreq.domain }
  let password ← inputbox
    { prompt := "Password for " ++ username ++ " at " ++ authreq.domain }
  M.pure ⟨username, password⟩

/-- `ICIE.assureAllSaved`: `vscode.workspace.saveAll(false)`, the external
flush-open-documents capability. -/
def assureAllSaved : M Unit := emit Event.saveAll

/-- `ICIE.requiresCompilation`: flushes unsaved documents, stats the
source, then (caught) the executable; missing executable means compile,
otherwise compile exactly when the source is strictly newer
(`statsrc.mtime <= statexe.mtime` means already compiled). -/
def requiresCompilation (dir : Directory) : M Bool := do
  let src := dir.source
  let exe := dir.executable
  assureAllSaved
  let statsrc ← afsStat src
  let statexe? ← tryStat exe
  match statexe? with
  | none => M.pure true
  | some statexe =>
      if statsrc ≤ statexe then M.pure false else M.pure true

/-- `ICIE.triggerBuild`: flush, then the worker build command on the
source path. -/
def triggerBuild (dir : Directory) : M Unit := do
  assureAllSaved
  ciBuild dir.source

/-- `ICIE.assureCompiled`: build only if `requiresCompilation`. -/
def assureCompiled (dir : Directory) : M Unit := do
  let rc ← requiresCompilation dir
  if rc then triggerBuild dir else M.pure ()

/-- `ICIE.triggerTest`: ensure compiled, then run the worker test command
on the executable and tests directory, returning the worker's boolean. -/
def triggerTest (dir : Directory) : M Bool := do
  assureCompiled dir
  ciTest dir.executable dir.testsDirectory

/-- `ICIE.assureTested`: `if (!await this.triggerTest()) throw "Not all
tests passed"`. -/
def assureTested (dir : Directory) : M Unit := do
  let ok ← triggerTest dir
  if ok then M.pure () else throwE Err.notAllTestsPassed

/-- `ICIE.triggerSubmit`: `assureTested`, then load the manifest from
`rootPath + '/.icie'` (the `Directory` is constructed from the workspace
root path), then the worker submit command with the auth callback. -/
def triggerSubmit (dir : Directory) : M Unit := do
  assureTested dir
  let manifest ← mnfstLoad (dir.base ++ "/.icie")
  ciSubmit dir.source manifest.task_url respondAuthreq

/-- `ICIE.askDescriptionURL`. -/
def askDescriptionURL : M String :=
  inputbox { prompt := "Task description URL: " }

/-- The fixed adjective word list of `randomName`. -/
def adjectives : List String :=
  ["playful", "shining", "sparkling", "rainbow", "kawaii",
   "superb", "amazing", "glowing", "blessed", "smiling"]

/-- The fixed animal word list of `randomName`. -/
def animals : List String :=
  ["capybara", "squirrel", "spider", "anteater", "hamster",
   "whale", "eagle", "zebra", "dolphin", "hedgehog"]

/-- `choice`: `xs[Math.floor(Math.random() * xs.length)]` — the random
draw is an index below the list length (modelled by reducing the oracle's
index modulo the length). -/
def choice (xs : List String) (i : Nat) : String :=
  xs.getD (i % xs.length) ""

/-- `ICIE.randomName`: one adjective and one animal joined with a
hyphen. -/
def randomName : M String := do
  let ij ← nextPick
  M.pure (choice adjectives ij.1 ++ "-" ++ choice animals ij.2)

/-- `ICIE.randomProjectName`: up to `tries` draws; a drawn name whose path
under the home directory does not exist is returned at once; exhausting
the budget rejects. -/
def randomProjectName : Nat → M String
  | 0 => throwE Err.noFreeProjectName
  | tries + 1 => do
      let name ← randomName
      let home ← homedir
      let ex ← afsExists (home ++ "/" ++ name)
      if ex then randomProjectName tries else M.pure name

/-- `ICIE.triggerInit`: ask the task URL, find a free project name (5
tries), create the directory, run the worker init (auth callback wired),
persist the manifest, copy the template into the new source path, then
signal the environment to open the new folder. -/
def triggerInit : M Unit := do
  let task_url ← askDescriptionURL
  let project_name ← randomProjectName 5
  let home ← homedir
  let project_dir := home ++ "/" ++ project_name
  afsMkdir project_dir
  ciInit task_url project_dir respondAuthreq
  mnfstSave (project_dir ++ "/.icie") ⟨task_url⟩
  let config ← confLoad
  let dir2 := Directory.mk project_dir
  afsCopy config.template.path dir2.source
  emit (Event.openFolder project_dir)

/-! ## Run lemmas for the effect monad -/

theorem M.run_bind (x : M α) (f : α → M β) (c : Ctx) :
    (x >>= f) c =
      match x c with
      | (Except.ok a, tr, c') =>
          ((f a c').1, tr ++ (f a c').2.1, (f a c').2.2)
      | (Except.error e, tr, c') => (Except.error e, tr, c') := rfl

theorem M.bind_ok {α β : Type} {x : M α} {c c' : Ctx} {a : α}
    {tr : List Event} (f : α → M β) (h : x c = (Except.ok a, tr, c')) :
    (x >>= f) c = ((f a c').1, tr ++ (f a c').2.1, (f a c').2.2) := by
  rw [M.run_bind, h]

theorem M.bind_err {α β : Type} {x : M α} {c c' : Ctx} {e : Err}
    {tr : List Event} (f : α → M β) (h : x c = (Except.error e, tr, c')) :
    (x >>= f) c = (Except.error e, tr, c') := by
  rw [M.run_bind, h]

theorem M.run_pure (a : α) (c : Ctx) :
    (M.pure a : M α) c = (Except.ok a, [], c) := rfl

theorem M.run_pure_inst (a : α) (c : Ctx) :
    (pure a : M α) c = (Except.ok a, [], c) := rfl

/-- Whatever a computation does after a bind, the trace of the first
component is a prefix of the whole trace. -/
theorem M.bind_trace (x : M α) (f : α → M β) (c : Ctx) :
    ∃ t, ((x >>= f) c).2.1 = (x c).2.1 ++ t := by
  rw [M.run_bind]
  rcases h : x c with ⟨r, tr, c'⟩
  cases r with
  | ok a => exact ⟨(f a c').2.1, rfl⟩
  | error e => exact ⟨[], by simp⟩

/-! ## C1 — freshness policy of `requiresCompilation` -/

/-- Closed-form run of `requiresCompilation`: flush, stat the source
(erroring if it is absent), stat the executable (compile if absent),
otherwise compile exactly when the source is strictly newer. -/
theorem requiresCompilation_run (dir : Directory) (ctx : Ctx) :
    requiresCompilation dir ctx =
      match ctx.mtimes.lookup dir.source with
      | none =>
          (Except.error Err.statFailed,
            [Event.saveAll, Event.stat dir.source], ctx)
      | some tsrc =>
          match ctx.mtimes.lookup dir.executable with
          | none =>
              (Except.ok true,
                [Event.saveAll, Event.stat dir.source,
                  Event.stat dir.executable], ctx)
          | some texe =>
              (if tsrc ≤ texe then Except.ok false else Except.ok true,
                [Event.saveAll, Event.stat dir.source,
                  Event.stat dir.executable], ctx) := by
  cases h1 : ctx.mtimes.lookup dir.source with
  | none =>
      simp only [requiresCompilation, assureAllSaved, emit, afsStat,
        tryStat, M.run_bind, M.run_pure, h1]
      rfl
  | some tsrc =>
      cases h2 : ctx.mtimes.lookup dir.executable with
      | none =>
          simp only [requiresCompilation, assureAllSaved, emit, afsStat,
            tryStat, M.run_bind, M.run_pure, h1, h2]
          rfl
      | some texe =>
          simp only [requiresCompilation, assureAllSaved, emit, afsStat,
            tryStat, M.run_bind, M.run_pure, h1, h2]
          by_cases hle : tsrc ≤ texe <;> simp [hle, M.run_pure]

/-- C1: `requiresCompilation` returns true whenever the executable file is
absent or the source's modification time is strictly greater than the
executable's, and returns false whenever the executable exists and its
modification time is ≥ the source's (the source itself must be
stat-able, else the call rejects instead of returning a boolean). -/
theorem requiresCompilation_freshness (ctx : Ctx) (dir : Directory)
    (tsrc : Nat) (hsrc : ctx.mtimes.lookup dir.source = some tsrc) :
    (ctx.mtimes.lookup dir.executable = none →
      (requiresCompilation dir ctx).1 = Except.ok true) ∧
    (∀ texe, ctx.mtimes.lookup dir.executable = some texe →
      (texe < tsrc → (requiresCompilation dir ctx).1 = Except.ok true) ∧
      (tsrc ≤ texe → (requiresCompilation dir ctx).1 = Except.ok false)) := by
  constructor
  · intro hexe
    simp only [requiresCompilation_run, hsrc, hexe]
  · intro texe hexe
    constructor
    · intro hlt
      simp only [requiresCompilation_run, hsrc, hexe]
      rw [if_neg (by omega)]
    · intro hle
      simp only [requiresCompilation_run, hsrc, hexe]
      rw [if_pos hle]

theorem M.mem_bind {α β : Type} {x : M α} {f : α → M β} {c : Ctx}
    {e : Event} (h : e ∈ ((x >>= f) c).2.1) :
    e ∈ (x c).2.1 ∨ ∃ a, e ∈ (f a (x c).2.2).2.1 := by
  rcases hx : x c with ⟨r, tr, c'⟩
  rw [M.run_bind, hx] at h
  cases r with
  | ok a =>
      rcases List.mem_append.mp h with h' | h'
      · exact Or.inl h'
      · exact Or.inr ⟨a, h'⟩
  | error e' =>
      exact Or.inl h

theorem preserves_bind {α β : Type} {x : M α} {f : α → M β}
    (hx : ∀ c, (x c).2.2 = c) (hf : ∀ a c, (f a c).2.2 = c) :
    ∀ c, ((x >>= f) c).2.2 = c := by
  intro c
  rw [M.run_bind]
  rcases hx2 : x c with ⟨r, tr, c'⟩
  have hc' : c' = c := by
    have := hx c
    rw [hx2] at this
    exact this
  cases r with
  | ok a => simpa [hc'] using hf a c'
  | error e => exact hc'

/-- Closed-form run of `triggerBuild`. -/
theorem triggerBuild_run (dir : Directory) (ctx : Ctx) :
    triggerBuild dir ctx =
      (if ctx.buildOk then Except.ok () else Except.error Err.buildFailed,
        [Event.saveAll, Event.buildImpulse dir.source], ctx) := by
  cases hb : ctx.buildOk <;>
    simp only [triggerBuild, assureAllSaved, emit, ciBuild, M.run_bind,
      hb] <;> simp

theorem requiresCompilation_preserves (dir : Directory) (ctx : Ctx) :
    (requiresCompilation dir ctx).2.2 = ctx := by
  rw [requiresCompilation_run]
  cases h1 : ctx.mtimes.lookup dir.source with
  | none => rfl
  | some tsrc =>
      cases h2 : ctx.mtimes.lookup dir.executable with
      | none => rfl
      | some texe => rfl

theorem assureCompiled_preserves (dir : Directory) (ctx : Ctx) :
    (assureCompiled dir ctx).2.2 = ctx := by
  refine preserves_bind (requiresCompilation_preserves dir) ?_ ctx
  intro a c
  cases a
  · rfl
  · show (triggerBuild dir c).2.2 = c
    rw [triggerBuild_run]

theorem triggerTest_preserves (dir : Directory) (ctx : Ctx) :
    (triggerTest dir ctx).2.2 = ctx := by
  refine preserves_bind (assureCompiled_preserves dir) ?_ ctx
  intro a c
  rfl

theorem mem_requiresCompilation_trace {dir : Directory} {ctx : Ctx}
    {e : Event} (h : e ∈ (requiresCompilation dir ctx).2.1) :
    e = Event.saveAll ∨ e = Event.stat dir.source ∨
      e = Event.stat dir.executable := by
  rw [requiresCompilation_run] at h
  cases h1 : ctx.mtimes.lookup dir.source with
  | none => rw [h1] at h; simp at h; tauto
  | some tsrc =>
      rw [h1] at h
      cases h2 : ctx.mtimes.lookup dir.executable with
      | none => rw [h2] at h; simp at h; tauto
      | some texe => rw [h2] at h; simp at h; tauto

theorem mem_triggerBuild_trace {dir : Directory} {ctx : Ctx} {e : Event}
    (h : e ∈ (triggerBuild dir ctx).2.1) :
    e = Event.saveAll ∨ e = Event.buildImpulse dir.source := by
  rw [triggerBuild_run] at h
  simpa using h

theorem mem_assureCompiled_trace {dir : Directory} {ctx : Ctx} {e : Event}
    (h : e ∈ (assureCompiled dir ctx).2.1) :
    e = Event.saveAll ∨ e = Event.stat dir.source ∨
      e = Event.stat dir.executable ∨ e = Event.buildImpulse dir.source := by
  rcases M.mem_bind h with h' | ⟨a, h'⟩
  · rcases mem_requiresCompilation_trace h' with h'' | h'' | h'' <;> tauto
  · cases a with
    | true => rcases mem_triggerBuild_trace h' with h'' | h'' <;> tauto
    | false => simp [M.pure] at h'

theorem mem_triggerTest_trace {dir : Directory} {ctx : Ctx} {e : Event}
    (h : e ∈ (triggerTest dir ctx).2.1) :
    e = Event.saveAll ∨ e = Event.stat dir.source ∨
      e = Event.stat dir.executable ∨ e = Event.buildImpulse dir.source ∨
      e = Event.testImpulse dir.executable dir.testsDirectory := by
  rcases M.mem_bind h with h' | ⟨a, h'⟩
  · rcases mem_assureCompiled_trace h' with h'' | h'' | h'' | h'' <;> tauto
  · have : e = Event.testImpulse dir.executable dir.testsDirectory := by
      simpa [ciTest] using h'
    tauto

/-- C10: every invocation of the freshness check — and therefore every
`triggerTest` and transitively every `triggerSubmit` — begins by flushing
all unsaved external documents (`saveAll` is the very first effect, hence
before any `stat` reads a modification time), for every environment,
including those where no build ends up being performed. -/
theorem flush_before_stat (ctx : Ctx) (dir : Directory) :
    (∃ tr, (requiresCompilation dir ctx).2.1 = Event.saveAll :: tr) ∧
    (∃ tr, (triggerTest dir ctx).2.1 = Event.saveAll :: tr) ∧
    (∃ tr, (triggerSubmit dir ctx).2.1 = Event.saveAll :: tr) := by
  have hrc : ∀ c : Ctx, ∃ tr,
      (requiresCompilation dir c).2.1 = Event.saveAll :: tr := by
    intro c
    rw [requiresCompilation_run]
    cases h1 : c.mtimes.lookup dir.source with
    | none => exact ⟨_, rfl⟩
    | some t =>
        cases h2 : c.mtimes.lookup dir.executable with
        | none => exact ⟨_, rfl⟩
        | some te => exact ⟨_, rfl⟩
  have hac : ∀ c : Ctx, ∃ tr,
      (assureCompiled dir c).2.1 = Event.saveAll :: tr := by
    intro c
    obtain ⟨t, ht⟩ : ∃ t, (assureCompiled dir c).2.1 =
        (requiresCompilation dir c).2.1 ++ t := M.bind_trace _ _ _
    obtain ⟨tr, htr⟩ := hrc c
    exact ⟨tr ++ t, by rw [ht, htr]; simp⟩
  have htt : ∀ c : Ctx, ∃ tr,
      (triggerTest dir c).2.1 = Event.saveAll :: tr := by
    intro c
    obtain ⟨t, ht⟩ : ∃ t, (triggerTest dir c).2.1 =
        (assureCompiled dir c).2.1 ++ t := M.bind_trace _ _ _
    obtain ⟨tr, htr⟩ := hac c
    exact ⟨tr ++ t, by rw [ht, htr]; simp⟩
  have hat : ∀ c : Ctx, ∃ tr,
      (assureTested dir c).2.1 = Event.saveAll :: tr := by
    intro c
    obtain ⟨t, ht⟩ : ∃ t, (assureTested dir c).2.1 =
        (triggerTest dir c).2.1 ++ t := M.bind_trace _ _ _
    obtain ⟨tr, htr⟩ := htt c
    exact ⟨tr ++ t, by rw [ht, htr]; simp⟩
  have hts : ∃ tr, (triggerSubmit dir ctx).2.1 = Event.saveAll :: tr := by
    obtain ⟨t, ht⟩ : ∃ t, (triggerSubmit dir ctx).2.1 =
        (assureTested dir ctx).2.1 ++ t := M.bind_trace _ _ _
    obtain ⟨tr, htr⟩ := hat ctx
    exact ⟨tr ++ t, by rw [ht, htr]; simp⟩
  exact ⟨hrc ctx, htt ctx, hts⟩

/-! ## C2 — submit hard stop on failing tests -/

/-- C2: whenever the test step reports failure (the worker's boolean is
false), `triggerSubmit` fails with the `PreconditionFailed`-class error
(`throw "Not all tests passed"`), sends no submit Impulse to the worker,
and never loads the manifest. -/
theorem submit_hard_stop (ctx : Ctx) (dir : Directory)
    (hfail : (triggerTest dir ctx).1 = Except.ok false) :
    (triggerSubmit dir ctx).1 = Except.error Err.notAllTestsPassed ∧
    (∀ s u, Event.submitImpulse s u ∉ (triggerSubmit dir ctx).2.1) ∧
    (∀ p, Event.manifestLoad p ∉ (triggerSubmit dir ctx).2.1) := by
  rcases htt : triggerTest dir ctx with ⟨r, tr, c'⟩
  have hr : r = Except.ok false := by rw [htt] at hfail; exact hfail
  subst hr
  have hat : assureTested dir ctx =
      (Except.error Err.notAllTestsPassed, tr, c') := by
    unfold assureTested
    rw [M.bind_ok _ htt]
    simp [throwE]
  have hts : triggerSubmit dir ctx =
      (Except.error Err.notAllTestsPassed, tr, c') := by
    unfold triggerSubmit
    rw [M.bind_err _ hat]
  refine ⟨by rw [hts], ?_, ?_⟩
  · intro s u hmem
    rw [hts] at hmem
    have hmem' : Event.submitImpulse s u ∈ (triggerTest dir ctx).2.1 := by
      rw [htt]; exact hmem
    rcases mem_triggerTest_trace hmem' with h | h | h | h | h <;> simp at h
  · intro p hmem
    rw [hts] at hmem
    have hmem' : Event.manifestLoad p ∈ (triggerTest dir ctx).2.1 := by
      rw [htt]; exact hmem
    rcases mem_triggerTest_trace hmem' with h | h | h | h | h <;> simp at h

/-- Concrete run of C2: with a fresh executable and a worker that reports
a failing test, the submit rejects with the hard-stop error, sends no
submit Impulse and loads no manifest. -/
theorem submit_hard_stop_witness :
    (triggerSubmit ⟨"/p"⟩
      { answers := [], picks := [], existing := [],
        mtimes := [("/p/main.cpp", 5), ("/p/main.e", 9)], buildOk := true,
        testOutcome := false, manifest := some "http://task",
        authChallenge := none, home := "/h",
        config := ⟨⟨"/t", ⟨1, 1⟩⟩⟩ }).1 =
        Except.error Err.notAllTestsPassed ∧
    Event.submitImpulse "/p/main.cpp" "http://task" ∉
      (triggerSubmit ⟨"/p"⟩
        { answers := [], picks := [], existing := [],
          mtimes := [("/p/main.cpp", 5), ("/p/main.e", 9)], buildOk := true,
          testOutcome := false, manifest := some "http://task",
          authChallenge := none, home := "/h",
          config := ⟨⟨"/t", ⟨1, 1⟩⟩⟩ }).2.1 ∧
    Event.manifestLoad "/p/.icie" ∉
      (triggerSubmit ⟨"/p"⟩
        { answers := [], picks := [], existing := [],
          mtimes := [("/p/main.cpp", 5), ("/p/main.e", 9)], buildOk := true,
          testOutcome := false, manifest := some "http://task",
          authChallenge := none, home := "/h",
          config := ⟨⟨"/t", ⟨1, 1⟩⟩⟩ }).2.1 := by
  refine ⟨(submit_hard_stop _ ⟨"/p"⟩ (by decide)).1,
    (submit_hard_stop _ ⟨"/p"⟩ (by decide)).2.1 _ _,
    (submit_hard_stop _ ⟨"/p"⟩ (by decide)).2.2 _⟩

/-! ## C7 — path derivation -/

theorem take_append_len (l m : List Char) (n : Nat) :
    (l ++ m).take (l.length + n) = l ++ m.take n := by
  induction l with
  | nil => simp
  | cons x xs ih =>
      have harith : xs.length + 1 + n = (xs.length + n) + 1 := by omega
      simp only [List.cons_append, List.length_cons, harith,
        List.take_succ_cons, ih]

/-- C7: path derivation is a pure function of the base path: the source is
`base/main.cpp`, the executable replaces the trailing 4-character
extension of the source with `.e` — hence `base/main.e` — and the tests
directory is `base/tests`, for every base path. -/
theorem directory_paths (base : String) :
    (Directory.mk base).source = base ++ "/main.cpp" ∧
    (Directory.mk base).executable = base ++ "/main.e" ∧
    (Directory.mk base).testsDirectory = base ++ "/tests" := by
  refine ⟨rfl, ?_, rfl⟩
  show String.mk ((base ++ "/main.cpp" : String).data.take
      ((base ++ "/main.cpp" : String).length - 4)) ++ ".e" = base ++ "/main.e"
  have hd : (base ++ "/main.cpp" : String).data =
      base.data ++ "/main.cpp".data := rfl
  have hl : (base ++ "/main.cpp" : String).length = base.data.length + 9 := by
    show (base.data ++ "/main.cpp".data).length = base.data.length + 9
    rw [List.length_append]
    rfl
  rw [hd, hl]
  have e1 : base.data.length + 9 - 4 = base.data.length + 5 := by omega
  rw [e1, take_append_len]
  have e2 : "/main.cpp".data.take 5 = "/main".data := rfl
  rw [e2]
  show String.mk ((base.data ++ "/main".data) ++ ".e".data) =
    String.mk (base.data ++ "/main.e".data)
  rw [List.append_assoc]
  rfl

/-! ## C9 — prompt cancellation -/

/-- Closed-form run of `inputbox`: the prompt capability is invoked, then
a defined answer (even the empty string) resolves, while a dismissal —
`undefined` from `showInputBox` — throws. -/
theorem inputbox_run (options : InputBoxOptions) (ctx : Ctx) :
    inputbox options ctx =
      match ctx.answers with
      | [] =>
          (Except.error Err.inputBoxCancelled,
            [Event.prompt options.prompt options.password], ctx)
      | none :: rest =>
          (Except.error Err.inputBoxCancelled,
            [Event.prompt options.prompt options.password],
            { ctx with answers := rest })
      | some s :: rest =>
          (Except.ok s, [Event.prompt options.prompt options.password],
            { ctx with answers := rest }) := by
  cases ha : ctx.answers with
  | nil =>
      simp only [inputbox, emit, askInput, throwE, M.run_bind, ha]
      rfl
  | cons a rest =>
      cases a with
      | none =>
          simp only [inputbox, emit, askInput, throwE, M.run_bind, ha]
          rfl
      | some s =>
          simp only [inputbox, emit, askInput, M.run_bind, M.run_pure, ha]
          rfl

/-- C9: dismissing a prompt makes the prompting operation fail with the
`PromptCancelled`-class error rather than return an empty string — and
the enclosing workflow step aborts with no further side effects (shown
for `triggerInit`, whose only effect is then the already-shown prompt) —
while an empty string entered by the user is a successful result,
distinct from cancellation. -/
theorem inputbox_cancellation (ctx : Ctx) (options : InputBoxOptions)
    (rest : List (Option String)) :
    (ctx.answers = none :: rest →
      inputbox options ctx =
        (Except.error Err.inputBoxCancelled,
          [Event.prompt options.prompt options.password],
          { ctx with answers := rest })) ∧
    (∀ s, ctx.answers = some s :: rest →
      inputbox options ctx =
        (Except.ok s, [Event.prompt options.prompt options.password],
          { ctx with answers := rest })) ∧
    (∀ s, (Except.ok s : Except Err String) ≠
      Except.error Err.inputBoxCancelled) ∧
    (ctx.answers = none :: rest →
      (triggerInit ctx).1 = Except.error Err.inputBoxCancelled ∧
      (triggerInit ctx).2.1 = [Event.prompt "Task description URL: " false]) := by
  refine ⟨?_, ?_, ?_, ?_⟩
  · intro ha
    rw [inputbox_run, ha]
  · intro s ha
    rw [inputbox_run, ha]
  · intro s h
    cases h
  · intro ha
    have hurl : askDescriptionURL ctx =
        (Except.error Err.inputBoxCancelled,
          [Event.prompt "Task description URL: " false],
          { ctx with answers := rest }) := by
      show inputbox { prompt := "Task description URL: " } ctx = _
      rw [inputbox_run, ha]
    have hinit : triggerInit ctx =
        (Except.error Err.inputBoxCancelled,
          [Event.prompt "Task description URL: " false],
          { ctx with answers := rest }) := by
      unfold triggerInit
      rw [M.bind_err _ hurl]
    rw [hinit]
    exact ⟨rfl, rfl⟩

/-- Concrete run of C9: a dismissed prompt aborts `triggerInit` with the
cancellation error and no effect beyond the shown prompt; a prompt
answered with the empty string succeeds with the empty string. -/
theorem inputbox_cancellation_witness :
    (triggerInit
      { answers := [none], picks := [(0, 0)], existing := [],
        mtimes := [], buildOk := true, testOutcome := true,
        manifest := none, authChallenge := none, home := "/h",
        config := ⟨⟨"/t", ⟨1, 1⟩⟩⟩ }).1 =
      Except.error Err.inputBoxCancelled ∧
    inputbox { prompt := "q" }
      { answers := [some ""], picks := [], existing := [],
        mtimes := [], buildOk := true, testOutcome := true,
        manifest := none, authChallenge := none, home := "/h",
        config := ⟨⟨"/t", ⟨1, 1⟩⟩⟩ } =
      (Except.ok "", [Event.prompt "q" false],
        { answers := [], picks := [], existing := [],
          mtimes := [], buildOk := true, testOutcome := true,
          manifest := none, authChallenge := none, home := "/h",
          config := ⟨⟨"/t", ⟨1, 1⟩⟩⟩ }) := by
  refine ⟨((inputbox_cancellation _ { prompt := "q" } [] ).2.2.2 rfl).1,
    (inputbox_cancellation _ { prompt := "q" } []).2.1 "" rfl⟩

/-! ## C8 — both credential prompts are plain input boxes -/

/-- True exactly on a prompt event whose masking flag is set. -/
def isMaskedPrompt (e : Event) : Bool :=
  match e with
  | Event.prompt _ m => m
  | _ => false

/-- C8 counterexample: on a concrete authentication challenge, the
password is gathered by the same plain `inputbox` capability as the
username — the trace holds two prompt events whose masking flag is false,
and no masked prompt at all — refuting the claim that the password goes
through a distinct secret (non-echoed) prompt. -/
theorem respondAuthreq_unmasked_cex :
    (respondAuthreq ⟨"codeforces"⟩
      { answers := [some "alice", some "hunter2"], picks := [],
        existing := [], mtimes := [], buildOk := true,
        testOutcome := true, manifest := none,
        authChallenge := some "codeforces", home := "/h",
        config := ⟨⟨"/t", ⟨1, 1⟩⟩⟩ }).2.1 =
      [Event.prompt "Username at codeforces" false,
        Event.prompt "Password for alice at codeforces" false] ∧
    ((respondAuthreq ⟨"codeforces"⟩
      { answers := [some "alice", some "hunter2"], picks := [],
        existing := [], mtimes := [], buildOk := true,
        testOutcome := true, manifest := none,
        authChallenge := some "codeforces", home := "/h",
        config := ⟨⟨"/t", ⟨1, 1⟩⟩⟩ }).2.1.all
        fun e => !(isMaskedPrompt e)) = true := by
  constructor
  · rfl
  · rfl

/-- Closed-form run of `respondAuthreq` on answered prompts: two plain
prompt events (the second quoting the first answer), both unmasked, and
the collected credential pair. -/
theorem respondAuthreq_run (ctx : Ctx) (domain u p : String)
    (rest : List (Option String))
    (ha : ctx.answers = some u :: some p :: rest) :
    respondAuthreq ⟨domain⟩ ctx =
      (Except.ok ⟨u, p⟩,
        [Event.prompt ("Username at " ++ domain) false,
          Event.prompt ("Password for " ++ u ++ " at " ++ domain) false],
        { ctx with answers := rest }) := by
  have h1 : inputbox { prompt := "Username at " ++ domain } ctx =
      (Except.ok u, [Event.prompt ("Username at " ++ domain) false],
        { ctx with answers := some p :: rest }) := by
    rw [inputbox_run, ha]
  have h2 : inputbox
      { prompt := "Password for " ++ u ++ " at " ++ domain }
      { ctx with answers := some p :: rest } =
      (Except.ok p,
        [Event.prompt ("Password for " ++ u ++ " at " ++ domain) false],
        { ctx with answers := rest }) := by
    rw [inputbox_run]
  unfold respondAuthreq
  rw [M.bind_ok _ h1]
  rw [M.bind_ok _ h2]
  rfl

/-- C8 as amended: both the username and the password are gathered via
the same plain text input box capability with the masking flag unset; the
password prompt is distinguished from the username prompt only by its
message text (which quotes the username answer, so it is issued only
after that answer arrives), and the collected pair is returned. -/
theorem respondAuthreq_plain_prompts (ctx : Ctx) (domain u p : String)
    (rest : List (Option String))
    (ha : ctx.answers = some u :: some p :: rest) :
    respondAuthreq ⟨domain⟩ ctx =
      (Except.ok ⟨u, p⟩,
        [Event.prompt ("Username at " ++ domain) false,
          Event.prompt ("Password for " ++ u ++ " at " ++ domain) false],
        { ctx with answers := rest }) :=
  respondAuthreq_run ctx domain u p rest ha

/-- Concrete run of the amended C8. -/
theorem respondAuthreq_plain_prompts_witness :
    respondAuthreq ⟨"sio2"⟩
      { answers := [some "bob", some "pw", none], picks := [],
        existing := [], mtimes := [], buildOk := true,
        testOutcome := true, manifest := none,
        authChallenge := some "sio2", home := "/h",
        config := ⟨⟨"/t", ⟨1, 1⟩⟩⟩ } =
      (Except.ok ⟨"bob", "pw"⟩,
        [Event.prompt "Username at sio2" false,
          Event.prompt "Password for bob at sio2" false],
        { answers := [none], picks := [],
          existing := [], mtimes := [], buildOk := true,
          testOutcome := true, manifest := none,
          authChallenge := some "sio2", home := "/h",
          config := ⟨⟨"/t", ⟨1, 1⟩⟩⟩ }) :=
  respondAuthreq_plain_prompts _ "sio2" "bob" "pw" [none] rfl

/-! ## C5 — project name search -/

/-- Closed-form run of `randomName`: consume one pair of random indices
and join the sampled adjective and animal with a hyphen. -/
theorem randomName_run (ctx : Ctx) :
    randomName ctx =
      match ctx.picks with
      | [] =>
          (Except.ok (choice adjectives 0 ++ "-" ++ choice animals 0),
            [], ctx)
      | ij :: rest =>
          (Except.ok (choice adjectives ij.1 ++ "-" ++ choice animals ij.2),
            [], { ctx with picks := rest }) := by
  cases hp : ctx.picks with
  | nil =>
      simp only [randomName, nextPick, M.run_bind, M.run_pure, hp]
      rfl
  | cons ij rest =>
      simp only [randomName, nextPick, M.run_bind, M.run_pure, hp]
      rfl

/-- One attempt of `randomProjectName`: draw a name, check its path under
the home directory; a free path returns the name at once, a collision
recurses with one fewer try. -/
theorem randomProjectName_step (n : Nat) (ctx : Ctx) (pr : Nat × Nat)
    (rest : List (Nat × Nat)) (hp : ctx.picks = pr :: rest) :
    randomProjectName (n + 1) ctx =
      if ctx.existing.contains (ctx.home ++ "/" ++
          (choice adjectives pr.1 ++ "-" ++ choice animals pr.2))
      then
        ((randomProjectName n { ctx with picks := rest }).1,
          Event.existsCheck (ctx.home ++ "/" ++
            (choice adjectives pr.1 ++ "-" ++ choice animals pr.2)) ::
            (randomProjectName n { ctx with picks := rest }).2.1,
          (randomProjectName n { ctx with picks := rest }).2.2)
      else
        (Except.ok (choice adjectives pr.1 ++ "-" ++ choice animals pr.2),
          [Event.existsCheck (ctx.home ++ "/" ++
            (choice adjectives pr.1 ++ "-" ++ choice animals pr.2))],
          { ctx with picks := rest }) := by
  have hname : randomName ctx =
      (Except.ok (choice adjectives pr.1 ++ "-" ++ choice animals pr.2),
        [], { ctx with picks := rest }) := by
    rw [randomName_run, hp]
  show (randomName >>= fun name => homedir >>= fun home =>
      afsExists (home ++ "/" ++ name) >>= fun ex =>
        if ex then randomProjectName n else M.pure name) ctx = _
  rw [M.bind_ok _ hname]
  cases hex : ctx.existing.contains (ctx.home ++ "/" ++
      (choice adjectives pr.1 ++ "-" ++ choice animals pr.2)) with
  | false =>
      simp only [homedir, afsExists, M.run_bind, M.run_pure, hex]
      rw [if_neg (by simp [hex])]
      simp [M.pure]
  | true =>
      simp only [homedir, afsExists, M.run_bind, M.run_pure, hex]
      rw [if_pos (by simp [hex])]
      simp [M.pure]

/-- Exhausting the try budget on colliding names rejects. -/
theorem randomProjectName_collides (n : Nat) :
    ∀ ctx : Ctx, n ≤ ctx.picks.length →
      (∀ pr ∈ ctx.picks.take n,
        ctx.existing.contains (ctx.home ++ "/" ++
          (choice adjectives pr.1 ++ "-" ++ choice animals pr.2)) = true) →
      (randomProjectName n ctx).1 = Except.error Err.noFreeProjectName := by
  induction n with
  | zero => intro ctx _ _; rfl
  | succ n ih =>
      intro ctx hlen hall
      cases hp : ctx.picks with
      | nil => rw [hp] at hlen; simp at hlen
      | cons pr rest =>
          have hhead : ctx.existing.contains (ctx.home ++ "/" ++
              (choice adjectives pr.1 ++ "-" ++ choice animals pr.2)) =
              true := by
            refine hall pr ?_
            rw [hp, List.take_succ_cons]
            exact List.mem_cons_self pr _
          rw [randomProjectName_step n ctx pr rest hp, if_pos hhead]
          refine ih { ctx with picks := rest } ?_ ?_
          · rw [hp] at hlen
            simpa using hlen
          · intro pr' hpr'
            refine hall pr' ?_
            rw [hp, List.take_succ_cons]
            exact List.mem_cons_of_mem pr (by simpa using hpr')

/-- C5: project-name generation samples one adjective and one animal from
the two fixed 10-element word lists, joins them with a hyphen, and checks
the candidate path under the home directory: a name whose path does not
exist is returned as soon as it is drawn (one existence check), while 5
consecutive collisions exhaust the budget and reject permanently with the
`NoFreeNameFound`-class error. -/
theorem randomProjectName_spec :
    (adjectives.length = 10 ∧ animals.length = 10) ∧
    (∀ (ctx : Ctx) (i j : Nat) (rest : List (Nat × Nat)) (tries : Nat),
      ctx.picks = (i, j) :: rest →
      ctx.existing.contains (ctx.home ++ "/" ++
        (choice adjectives i ++ "-" ++ choice animals j)) = false →
      randomProjectName (tries + 1) ctx =
        (Except.ok (choice adjectives i ++ "-" ++ choice animals j),
          [Event.existsCheck (ctx.home ++ "/" ++
            (choice adjectives i ++ "-" ++ choice animals j))],
          { ctx with picks := rest })) ∧
    (∀ ctx : Ctx, 5 ≤ ctx.picks.length →
      (∀ pr ∈ ctx.picks.take 5,
        ctx.existing.contains (ctx.home ++ "/" ++
          (choice adjectives pr.1 ++ "-" ++ choice animals pr.2)) = true) →
      (randomProjectName 5 ctx).1 = Except.error Err.noFreeProjectName) := by
  refine ⟨⟨rfl, rfl⟩, ?_, ?_⟩
  · intro ctx i j rest tries hp hfree
    rw [randomProjectName_step tries ctx (i, j) rest hp,
      if_neg (by rw [hfree]; simp)]
  · exact randomProjectName_collides 5

/-- Concrete run of C5: the first drawn name `playful-squirrel` is free
and returned after a single existence check; with all of the first five
drawn names already existing under the home directory, the search rejects
after its 5 tries. -/
theorem randomProjectName_spec_witness :
    randomProjectName 5
      { answers := [], picks := [(0, 1), (2, 3)], existing := [],
        mtimes := [], buildOk := true, testOutcome := true,
        manifest := none, authChallenge := none, home := "/home/u",
        config := ⟨⟨"/t", ⟨1, 1⟩⟩⟩ } =
      (Except.ok "playful-squirrel",
        [Event.existsCheck "/home/u/playful-squirrel"],
        { answers := [], picks := [(2, 3)], existing := [],
          mtimes := [], buildOk := true, testOutcome := true,
          manifest := none, authChallenge := none, home := "/home/u",
          config := ⟨⟨"/t", ⟨1, 1⟩⟩⟩ }) ∧
    (randomProjectName 5
      { answers := [],
        picks := [(0, 0), (0, 0), (0, 0), (0, 0), (0, 0), (1, 1)],
        existing := ["/home/u/playful-capybara"],
        mtimes := [], buildOk := true, testOutcome := true,
        manifest := none, authChallenge := none, home := "/home/u",
        config := ⟨⟨"/t", ⟨1, 1⟩⟩⟩ }).1 =
      Except.error Err.noFreeProjectName := by
  constructor
  · have h := randomProjectName_spec.2.1
      { answers := [], picks := [(0, 1), (2, 3)], existing := [],
        mtimes := [], buildOk := true, testOutcome := true,
        manifest := none, authChallenge := none, home := "/home/u",
        config := ⟨⟨"/t", ⟨1, 1⟩⟩⟩ } 0 1 [(2, 3)] 4 rfl (by decide)
    simpa using h
  · exact randomProjectName_spec.2.2
      { answers := [],
        picks := [(0, 0), (0, 0), (0, 0), (0, 0), (0, 0), (1, 1)],
        existing := ["/home/u/playful-capybara"],
        mtimes := [], buildOk := true, testOutcome := true,
        manifest := none, authChallenge := none, home := "/home/u",
        config := ⟨⟨"/t", ⟨1, 1⟩⟩⟩ } (by decide) (by decide)

/-! ## C4 — authentication round-trip ordering -/

/-- A successful `assureTested` is exactly a successful `triggerTest` run
whose boolean was true: same trace, environment untouched. -/
theorem assureTested_ok {dir : Directory} {ctx : Ctx}
    (h : (assureTested dir ctx).1 = Except.ok ()) :
    assureTested dir ctx = (Except.ok (), (triggerTest dir ctx).2.1, ctx) := by
  rcases htt : triggerTest dir ctx with ⟨r, tr, c'⟩
  have hc' : c' = ctx := by
    have hp := triggerTest_preserves dir ctx
    rw [htt] at hp
    exact hp
  rw [hc'] at htt
  cases r with
  | error e =>
      have hat : assureTested dir ctx = (Except.error e, tr, ctx) := by
        unfold assureTested
        rw [M.bind_err _ htt]
      rw [hat] at h
      exact absurd h (by simp)
  | ok b =>
      cases b with
      | false =>
          have hat : assureTested dir ctx =
              (Except.error Err.notAllTestsPassed, tr ++ [], ctx) := by
            unfold assureTested
            rw [M.bind_ok _ htt]
            rfl
          rw [hat] at h
          exact absurd h (by simp)
      | true =>
          have hat : assureTested dir ctx = (Except.ok (), tr ++ [], ctx) := by
            unfold assureTested
            rw [M.bind_ok _ htt]
            rfl
          rw [hat]
          simp

/-- Run of the (spec-modelled) worker submit with an outstanding
authentication challenge, wired to `respondAuthreq`: the submit Impulse,
then exactly the username prompt, the password prompt (quoting the
username answer) and the credential response, in that order. -/
theorem ciSubmit_challenge (ctx : Ctx) (source url domain u p : String)
    (rest : List (Option String))
    (hauth : ctx.authChallenge = some domain)
    (hans : ctx.answers = some u :: some p :: rest) :
    ciSubmit source url respondAuthreq ctx =
      (Except.ok (),
        [Event.submitImpulse source url,
          Event.prompt ("Username at " ++ domain) false,
          Event.prompt ("Password for " ++ u ++ " at " ++ domain) false,
          Event.authRespond u p],
        { ctx with answers := rest }) := by
  simp only [ciSubmit, emit, getCtx, M.run_bind, hauth]
  rw [respondAuthreq_run ctx domain u p rest hans]
  simp [emit, hauth]

/-- Run of the (spec-modelled) worker init with an outstanding
authentication challenge, wired to `respondAuthreq`. -/
theorem ciInit_challenge (ctx : Ctx) (url dirpath domain u p : String)
    (rest : List (Option String))
    (hauth : ctx.authChallenge = some domain)
    (hans : ctx.answers = some u :: some p :: rest) :
    ciInit url dirpath respondAuthreq ctx =
      (Except.ok (),
        [Event.initImpulse url dirpath,
          Event.prompt ("Username at " ++ domain) false,
          Event.prompt ("Password for " ++ u ++ " at " ++ domain) false,
          Event.authRespond u p],
        { ctx with answers := rest }) := by
  simp only [ciInit, emit, getCtx, M.run_bind, hauth]
  rw [respondAuthreq_run ctx domain u p rest hans]
  simp [emit, hauth]

/-- Run of the (spec-modelled) worker init with no challenge: just the
init Impulse. -/
theorem ciInit_nochallenge (ctx : Ctx) (url dirpath : String)
    (cb : AuthRequest → M AuthResponse)
    (hauth : ctx.authChallenge = none) :
    ciInit url dirpath cb ctx =
      (Except.ok (), [Event.initImpulse url dirpath], ctx) := by
  simp only [ciInit, emit, getCtx, M.run_bind, hauth, M.run_pure_inst]
  rfl

/-- C4: when the worker raises an authentication challenge during submit
(first conjunct: the whole `triggerSubmit` run) or during init (second
conjunct: the worker-init call), the orchestrator issues exactly one
username prompt followed by exactly one password prompt — the password
prompt text quotes the username answer, so it can only be issued after
that answer arrives — and the `{username, password}` response is sent
back, all before the triggering call's result resolves; no other prompt
or credential event occurs (during submit, everything preceding comes
from the test precondition: flush/stat/build/test events only). -/
theorem auth_roundtrip_order :
    (∀ (ctx : Ctx) (dir : Directory) (url domain u p : String)
        (rest : List (Option String)),
      (assureTested dir ctx).1 = Except.ok () →
      ctx.manifest = some url →
      ctx.authChallenge = some domain →
      ctx.answers = some u :: some p :: rest →
      triggerSubmit dir ctx =
        (Except.ok (),
          (triggerTest dir ctx).2.1 ++
            [Event.manifestLoad (dir.base ++ "/.icie"),
              Event.submitImpulse dir.source url,
              Event.prompt ("Username at " ++ domain) false,
              Event.prompt ("Password for " ++ u ++ " at " ++ domain) false,
              Event.authRespond u p],
          { ctx with answers := rest }) ∧
      (∀ e ∈ (triggerTest dir ctx).2.1,
        e = Event.saveAll ∨ e = Event.stat dir.source ∨
          e = Event.stat dir.executable ∨
          e = Event.buildImpulse dir.source ∨
          e = Event.testImpulse dir.executable dir.testsDirectory)) ∧
    (∀ (ctx : Ctx) (url dirpath domain u p : String)
        (rest : List (Option String)),
      ctx.authChallenge = some domain →
      ctx.answers = some u :: some p :: rest →
      ciInit url dirpath respondAuthreq ctx =
        (Except.ok (),
          [Event.initImpulse url dirpath,
            Event.prompt ("Username at " ++ domain) false,
            Event.prompt ("Password for " ++ u ++ " at " ++ domain) false,
            Event.authRespond u p],
          { ctx with answers := rest })) := by
  constructor
  · intro ctx dir url domain u p rest hsucc hman hauth hans
    refine ⟨?_, fun e he => mem_triggerTest_trace he⟩
    have hat := assureTested_ok hsucc
    have hload : mnfstLoad (dir.base ++ "/.icie") ctx =
        (Except.ok ⟨url⟩, [Event.manifestLoad (dir.base ++ "/.icie")],
          ctx) := by
      unfold mnfstLoad
      rw [hman]
    have hsub := ciSubmit_challenge ctx dir.source url domain u p rest
      hauth hans
    have hinner : ((mnfstLoad (dir.base ++ "/.icie")) >>= fun manifest =>
        ciSubmit dir.source manifest.task_url respondAuthreq) ctx =
        (Except.ok (),
          Event.manifestLoad (dir.base ++ "/.icie") ::
            [Event.submitImpulse dir.source url,
              Event.prompt ("Username at " ++ domain) false,
              Event.prompt ("Password for " ++ u ++ " at " ++ domain) false,
              Event.authRespond u p],
          { ctx with answers := rest }) := by
      rw [M.bind_ok _ hload]
      simp [hsub]
    unfold triggerSubmit
    rw [M.bind_ok _ hat]
    simp [hinner]
  · intro ctx url dirpath domain u p rest hauth hans
    exact ciInit_challenge ctx url dirpath domain u p rest hauth hans

/-- Concrete run of C4: a submit with a fresh executable, passing tests
and an outstanding challenge performs the full trace — flush, stats,
test, manifest load, submit Impulse, the two prompts in order, and the
credential response — before resolving; a worker init with a challenge
prompts in the same order. -/
theorem auth_roundtrip_order_witness :
    triggerSubmit ⟨"/p"⟩
      { answers := [some "alice", some "pw"], picks := [], existing := [],
        mtimes := [("/p/main.cpp", 5), ("/p/main.e", 9)], buildOk := true,
        testOutcome := true, manifest := some "http://task",
        authChallenge := some "cf", home := "/h",
        config := ⟨⟨"/t", ⟨1, 1⟩⟩⟩ } =
      (Except.ok (),
        [Event.saveAll, Event.stat "/p/main.cpp", Event.stat "/p/main.e",
          Event.testImpulse "/p/main.e" "/p/tests",
          Event.manifestLoad "/p/.icie",
          Event.submitImpulse "/p/main.cpp" "http://task",
          Event.prompt "Username at cf" false,
          Event.prompt "Password for alice at cf" false,
          Event.authRespond "alice" "pw"],
        { answers := [], picks := [], existing := [],
          mtimes := [("/p/main.cpp", 5), ("/p/main.e", 9)], buildOk := true,
          testOutcome := true, manifest := some "http://task",
          authChallenge := some "cf", home := "/h",
          config := ⟨⟨"/t", ⟨1, 1⟩⟩⟩ }) ∧
    ciInit "http://t2" "/h/d" respondAuthreq
      { answers := [some "bob", some "pw2"], picks := [], existing := [],
        mtimes := [], buildOk := true, testOutcome := true,
        manifest := none, authChallenge := some "sio", home := "/h",
        config := ⟨⟨"/t", ⟨1, 1⟩⟩⟩ } =
      (Except.ok (),
        [Event.initImpulse "http://t2" "/h/d",
          Event.prompt "Username at sio" false,
          Event.prompt "Password for bob at sio" false,
          Event.authRespond "bob" "pw2"],
        { answers := [], picks := [], existing := [],
          mtimes := [], buildOk := true, testOutcome := true,
          manifest := none, authChallenge := some "sio", home := "/h",
          config := ⟨⟨"/t", ⟨1, 1⟩⟩⟩ }) := by
  constructor
  · exact (auth_roundtrip_order.1
      { answers := [some "alice", some "pw"], picks := [], existing := [],
        mtimes := [("/p/main.cpp", 5), ("/p/main.e", 9)], buildOk := true,
        testOutcome := true, manifest := some "http://task",
        authChallenge := some "cf", home := "/h",
        config := ⟨⟨"/t", ⟨1, 1⟩⟩⟩ } ⟨"/p"⟩ "http://task" "cf" "alice" "pw"
      [] (by decide) rfl rfl rfl).1
  · exact auth_roundtrip_order.2
      { answers := [some "bob", some "pw2"], picks := [], existing := [],
        mtimes := [], buildOk := true, testOutcome := true,
        manifest := none, authChallenge := some "sio", home := "/h",
        config := ⟨⟨"/t", ⟨1, 1⟩⟩⟩ } "http://t2" "/h/d" "sio" "bob" "pw2"
      [] rfl rfl

/-! ## C6 — init step ordering -/

/-- One attempt of `randomProjectName` when the random oracle is
exhausted (the draw defaults to indices (0,0) and consumes nothing). -/
theorem randomProjectName_step_nil (n : Nat) (ctx : Ctx)
    (hp : ctx.picks = []) :
    randomProjectName (n + 1) ctx =
      if ctx.existing.contains (ctx.home ++ "/" ++
          (choice adjectives 0 ++ "-" ++ choice animals 0))
      then
        ((randomProjectName n ctx).1,
          Event.existsCheck (ctx.home ++ "/" ++
            (choice adjectives 0 ++ "-" ++ choice animals 0)) ::
            (randomProjectName n ctx).2.1,
          (randomProjectName n ctx).2.2)
      else
        (Except.ok (choice adjectives 0 ++ "-" ++ choice animals 0),
          [Event.existsCheck (ctx.home ++ "/" ++
            (choice adjectives 0 ++ "-" ++ choice animals 0))],
          ctx) := by
  have hname : randomName ctx =
      (Except.ok (choice adjectives 0 ++ "-" ++ choice animals 0),
        [], ctx) := by
    rw [randomName_run, hp]
  show (randomName >>= fun name => homedir >>= fun home =>
      afsExists (home ++ "/" ++ name) >>= fun ex =>
        if ex then randomProjectName n else M.pure name) ctx = _
  rw [M.bind_ok _ hname]
  cases hex : ctx.existing.contains (ctx.home ++ "/" ++
      (choice adjectives 0 ++ "-" ++ choice animals 0)) with
  | false =>
      simp only [homedir, afsExists, M.run_bind, M.run_pure, hex]
      rw [if_neg (by simp [hex])]
      simp [M.pure]
  | true =>
      simp only [homedir, afsExists, M.run_bind, M.run_pure, hex]
      rw [if_pos (by simp [hex])]
      simp [M.pure]

/-- Whatever the environment, the name search only performs existence
checks, and only consumes random picks from the environment. -/
theorem randomProjectName_shape (n : Nat) :
    ∀ ctx : Ctx,
      (∀ e ∈ (randomProjectName n ctx).2.1, ∃ q, e = Event.existsCheck q) ∧
      (∃ pk, (randomProjectName n ctx).2.2 = { ctx with picks := pk }) := by
  induction n with
  | zero =>
      intro ctx
      constructor
      · intro e he
        exact absurd he (by simp [randomProjectName, throwE])
      · exact ⟨ctx.picks, rfl⟩
  | succ n ih =>
      intro ctx
      cases hp : ctx.picks with
      | nil =>
          rw [randomProjectName_step_nil n ctx hp]
          cases hex : ctx.existing.contains (ctx.home ++ "/" ++
              (choice adjectives 0 ++ "-" ++ choice animals 0)) with
          | false =>
              rw [if_neg (by simp)]
              exact ⟨by intro e he; simp at he; exact ⟨_, he⟩,
                ⟨ctx.picks, rfl⟩⟩
          | true =>
              rw [if_pos rfl]
              refine ⟨?_, ?_⟩
              · intro e he
                simp at he
                rcases he with he | he
                · exact ⟨_, he⟩
                · exact (ih ctx).1 e he
              · exact (ih ctx).2
      | cons pr rest =>
          rw [randomProjectName_step n ctx pr rest hp]
          cases hex : ctx.existing.contains (ctx.home ++ "/" ++
              (choice adjectives pr.1 ++ "-" ++ choice animals pr.2)) with
          | false =>
              rw [if_neg (by simp)]
              exact ⟨by intro e he; simp at he; exact ⟨_, he⟩,
                ⟨rest, rfl⟩⟩
          | true =>
              rw [if_pos rfl]
              refine ⟨?_, ?_⟩
              · intro e he
                simp at he
                rcases he with he | he
                · exact ⟨_, he⟩
                · exact (ih { ctx with picks := rest }).1 e he
              · obtain ⟨pk, hpk⟩ := (ih { ctx with picks := rest }).2
                exact ⟨pk, by rw [hpk]⟩

/-- C6: every successful init performs its steps in order — the task URL
prompt, the free-name search (existence checks only), the directory
creation, the worker init command (possibly pausing for the two
authentication prompts and the credential response), the manifest
persisted to `.icie` in the new directory, the config read and the
template copied to the new project's source path, and finally the signal
to switch context into the new directory. -/
theorem triggerInit_order (ctx : Ctx) (url name : String)
    (restA : List (Option String))
    (hans : ctx.answers = some url :: restA)
    (hrpn : (randomProjectName 5 { ctx with answers := restA }).1 =
      Except.ok name)
    (hauth : ctx.authChallenge = none ∨
      ∃ d u p rest2, ctx.authChallenge = some d ∧
        restA = some u :: some p :: rest2) :
    ∃ checks authEvs ctxF,
      triggerInit ctx =
        (Except.ok (),
          Event.prompt "Task description URL: " false ::
            (checks ++
              Event.mkdir (ctx.home ++ "/" ++ name) ::
                Event.initImpulse url (ctx.home ++ "/" ++ name) ::
                  (authEvs ++
                    [Event.manifestSave
                        (ctx.home ++ "/" ++ name ++ "/.icie") url,
                      Event.confLoad,
                      Event.copy ctx.config.template.path
                        (ctx.home ++ "/" ++ name ++ "/main.cpp"),
                      Event.openFolder (ctx.home ++ "/" ++ name)])),
          ctxF) ∧
      (∀ e ∈ checks, ∃ q, e = Event.existsCheck q) ∧
      (authEvs = [] ∨ ∃ d u2 p2,
        authEvs = [Event.prompt ("Username at " ++ d) false,
          Event.prompt ("Password for " ++ u2 ++ " at " ++ d) false,
          Event.authRespond u2 p2]) := by
  rcases hr : randomProjectName 5 { ctx with answers := restA }
    with ⟨r, checks, ctx2⟩
  have hrok : r = Except.ok name := by
    rw [hr] at hrpn
    exact hrpn
  subst hrok
  have hshape := randomProjectName_shape 5 { ctx with answers := restA }
  rw [hr] at hshape
  obtain ⟨hchecks, pk, hctx2⟩ := hshape
  have hctx2' : ctx2 = { ctx with answers := restA, picks := pk } := by
    simpa using hctx2
  rw [hctx2'] at hr
  rcases hauth with hnone | ⟨d, u2, p2, rest2, hsome, hrest⟩
  · refine ⟨checks, [], { ctx with answers := restA, picks := pk },
      ?_, hchecks, Or.inl rfl⟩
    have hci : ciInit url (ctx.home ++ "/" ++ name) respondAuthreq
        { ctx with answers := restA, picks := pk } =
        (Except.ok (),
          [Event.initImpulse url (ctx.home ++ "/" ++ name)],
          { ctx with answers := restA, picks := pk }) :=
      ciInit_nochallenge _ _ _ _ (by simpa using hnone)
    simp only [triggerInit, askDescriptionURL, inputbox_run, hans,
      M.run_bind, hr, homedir, afsMkdir, mnfstSave, emit, confLoad,
      afsCopy, hci, M.run_pure, M.run_pure_inst]
    simp [Directory.source]
  · subst hrest
    refine ⟨checks,
      [Event.prompt ("Username at " ++ d) false,
        Event.prompt ("Password for " ++ u2 ++ " at " ++ d) false,
        Event.authRespond u2 p2],
      { ctx with answers := rest2, picks := pk },
      ?_, hchecks, Or.inr ⟨d, u2, p2, rfl⟩⟩
    have hci : ciInit url (ctx.home ++ "/" ++ name) respondAuthreq
        { ctx with answers := some u2 :: some p2 :: rest2, picks := pk } =
        (Except.ok (),
          [Event.initImpulse url (ctx.home ++ "/" ++ name),
            Event.prompt ("Username at " ++ d) false,
            Event.prompt ("Password for " ++ u2 ++ " at " ++ d) false,
            Event.authRespond u2 p2],
          { ctx with answers := rest2, picks := pk }) := by
      have := ciInit_challenge
        { ctx with answers := some u2 :: some p2 :: rest2, picks := pk }
        url (ctx.home ++ "/" ++ name) d u2 p2 rest2
        (by simpa using hsome) (by simp)
      simpa using this
    simp only [triggerInit, askDescriptionURL, inputbox_run, hans,
      M.run_bind, hr, homedir, afsMkdir, mnfstSave, emit, confLoad,
      afsCopy, hci, M.run_pure, M.run_pure_inst]
    simp [Directory.source]

/-- Concrete run of C6: a full successful init with an authentication
pause, on explicit oracle answers. -/
theorem triggerInit_order_witness :
    ∃ checks authEvs ctxF,
      triggerInit
        { answers := [some "http://task", some "al", some "pw"],
          picks := [(0, 0)], existing := [], mtimes := [],
          buildOk := true, testOutcome := true, manifest := none,
          authChallenge := some "cf", home := "/h",
          config := ⟨⟨"/tpl", ⟨1, 1⟩⟩⟩ } =
        (Except.ok (),
          Event.prompt "Task description URL: " false ::
            (checks ++
              Event.mkdir "/h/playful-capybara" ::
                Event.initImpulse "http://task" "/h/playful-capybara" ::
                  (authEvs ++
                    [Event.manifestSave "/h/playful-capybara/.icie"
                        "http://task",
                      Event.confLoad,
                      Event.copy "/tpl" "/h/playful-capybara/main.cpp",
                      Event.openFolder "/h/playful-capybara"])),
          ctxF) ∧
      (∀ e ∈ checks, ∃ q, e = Event.existsCheck q) ∧
      (authEvs = [] ∨ ∃ d u2 p2,
        authEvs = [Event.prompt ("Username at " ++ d) false,
          Event.prompt ("Password for " ++ u2 ++ " at " ++ d) false,
          Event.authRespond u2 p2]) :=
  triggerInit_order
    { answers := [some "http://task", some "al", some "pw"],
      picks := [(0, 0)], existing := [], mtimes := [],
      buildOk := true, testOutcome := true, manifest := none,
      authChallenge := some "cf", home := "/h",
      config := ⟨⟨"/tpl", ⟨1, 1⟩⟩⟩ } "http://task" "playful-capybara"
    [some "al", some "pw"] rfl (by decide)
    (Or.inr ⟨"cf", "al", "pw", [], rfl, rfl⟩)

/-- Concrete run of C1: with the source at mtime 10, an absent executable
demands a build; an executable at mtime 9 demands a build; executables at
mtimes 10 and 11 are reused. -/
theorem requiresCompilation_freshness_witness :
    (requiresCompilation ⟨"/p"⟩
      { answers := [], picks := [], existing := [],
        mtimes := [("/p/main.cpp", 10)], buildOk := true,
        testOutcome := true, manifest := none, authChallenge := none,
        home := "/h", config := ⟨⟨"/t", ⟨1, 1⟩⟩⟩ }).1 = Except.ok true ∧
    (requiresCompilation ⟨"/p"⟩
      { answers := [], picks := [], existing := [],
        mtimes := [("/p/main.cpp", 10), ("/p/main.e", 9)], buildOk := true,
        testOutcome := true, manifest := none, authChallenge := none,
        home := "/h", config := ⟨⟨"/t", ⟨1, 1⟩⟩⟩ }).1 = Except.ok true ∧
    (requiresCompilation ⟨"/p"⟩
      { answers := [], picks := [], existing := [],
        mtimes := [("/p/main.cpp", 10), ("/p/main.e", 10)], buildOk := true,
        testOutcome := true, manifest := none, authChallenge := none,
        home := "/h", config := ⟨⟨"/t", ⟨1, 1⟩⟩⟩ }).1 = Except.ok false := by
  refine ⟨(requiresCompilation_freshness _ ⟨"/p"⟩ 10 (by decide)).1 (by decide),
    ((requiresCompilation_freshness _ ⟨"/p"⟩ 10 (by decide)).2 9
      (by decide)).1 (by decide),
    ((requiresCompilation_freshness _ ⟨"/p"⟩ 10 (by decide)).2 10
      (by decide)).2 (by decide)⟩

end Icie
